import Mathlib

/-!
Verification of the `stem.version` module (file `stem/version.py`): version
string parsing, version comparison, version-requirement rules, the feature
requirement registry, and the memoizing system-version resolver
`get_system_tor_version`.

Strings are modelled as `List Char`.  Python's `None` becomes `Option.none`,
Python exceptions become `Except` / explicit error values, and the module
level mutable cache `VERSION_CACHE` becomes explicit state passing.
-/

/-- Python 2's `\s` character class over byte strings: space, tab, newline,
carriage return, vertical tab and form feed.  `\S` is its negation. -/
def isPySpace (c : Char) : Bool :=
  c == ' ' || c == '\t' || c == '\n' || c == '\r' || c == '\x0b' || c == '\x0c'

/-- Value of `int(...)` applied to a non-empty string of decimal digits. -/
def digitsToNat (l : List Char) : Nat :=
  l.foldl (fun n c => 10 * n + (c.toNat - 48)) 0

/-- The five capture groups of the regex
`^([0-9]+)\.([0-9]+)\.([0-9]+)(\.[0-9]+)?(-\S*)?$` from `Version.__init__`,
with the leading `.` of group 4 and the leading `-` of group 5 already
stripped (as lines 111-112 of the source do). -/
structure RegexGroups where
  major : List Char
  minor : List Char
  micro : List Char
  patch : Option (List Char)
  status : Option (List Char)
  deriving DecidableEq, Repr

/-- Matches `[0-9]+` greedily at the front of the input, returning the digit
run and the remaining characters; fails if no digit is present. -/
def reDigits1 (s : List Char) : Option (List Char × List Char) :=
  match s.takeWhile Char.isDigit with
  | [] => none
  | d => some (d, s.dropWhile Char.isDigit)

/-- Matches a literal `.` at the front of the input. -/
def reDot (s : List Char) : Option (List Char) :=
  match s with
  | [] => none
  | c :: r => if c = '.' then some r else none

/-- Python's `$` anchor (no MULTILINE): it matches at the very end of the
string, or just before a newline that is the string's last character. -/
def endCheck (rest : List Char) : Bool :=
  rest == [] || rest == ['\n']

/-- Matches the optional trailing group `(-\S*)?` followed by the `$` anchor.
Returns the stripped status token (`none` when the group did not
participate). -/
def statusEnd (rest : List Char) : Option (Option (List Char)) :=
  match rest with
  | [] => if endCheck [] then some none else none
  | c :: r =>
    if c = '-' then
      if endCheck (r.dropWhile fun x => !isPySpace x) then
        some (some (r.takeWhile fun x => !isPySpace x))
      else none
    else if endCheck (c :: r) then some none else none

/-- The anchored match of `Version.__init__`'s regex
`^([0-9]+)\.([0-9]+)\.([0-9]+)(\.[0-9]+)?(-\S*)?$` against the input,
producing the capture groups on success.  The greedy left-to-right reading
is faithful: backtracking can never turn a failure of this reading into a
regex match, because every component is followed by a delimiter it cannot
consume. -/
def parseCore (s : List Char) : Option RegexGroups :=
  match reDigits1 s with
  | none => none
  | some (d1, r1) =>
    match reDot r1 with
    | none => none
    | some r2 =>
      match reDigits1 r2 with
      | none => none
      | some (d2, r3) =>
        match reDot r3 with
        | none => none
        | some r4 =>
          match reDigits1 r4 with
          | none => none
          | some (d3, r5) =>
            match reDot r5 with
            | some r6 =>
              match reDigits1 r6 with
              | some (d4, r7) => (statusEnd r7).map fun st => ⟨d1, d2, d3, some d4, st⟩
              | none => (statusEnd r5).map fun st => ⟨d1, d2, d3, none, st⟩
            | none => (statusEnd r5).map fun st => ⟨d1, d2, d3, none, st⟩

/-- The `Version` class: structured tor version data.  `version_str` is the
exact construction string (stored at line 102 of the source before any
validation), `patch` and `status` are `none` when their regex groups did not
participate. -/
structure Version where
  version_str : List Char
  major : Nat
  minor : Nat
  micro : Nat
  patch : Option Nat
  status : Option (List Char)
  deriving DecidableEq, Repr

/-- The `Version.__init__` constructor: on a regex match it stores the
integer components, the stripped optional patch and the stripped optional
status; otherwise it raises `ValueError` carrying the offending string
(modelled as `Except.error` with the input). -/
def parseVersion (s : List Char) : Except (List Char) Version :=
  match parseCore s with
  | some g => .ok ⟨s, digitsToNat g.major, digitsToNat g.minor, digitsToNat g.micro,
      g.patch.map digitsToNat, g.status⟩
  | none => .error s

/-- Convenience wrapper used for the module's version literals such as
`Version("0.2.2.36")`; every literal it is applied to in this file parses
successfully, so the fallback value is never produced. -/
def Version.ofString (s : String) : Version :=
  match parseVersion s.toList with
  | .ok v => v
  | .error _ => ⟨[], 0, 0, 0, none, none⟩

/-- The `Version.__str__` method: returns the string used to construct the
`Version` (source lines 139-144). -/
def Version.str (v : Version) : List Char :=
  v.version_str

/-- Python 2's `max(0, x)` where `x` is either `None` or a non-negative
integer: `None` compares below every integer, so `max(0, None) = 0`. -/
def pyMax0 : Option Nat → Nat
  | none => 0
  | some n => n

/-- The `Version.__cmp__` method (source lines 146-167): walks the
attributes `major`, `minor`, `micro`, `patch` in order, each passed through
`max(0, ·)`, and returns 1 / -1 at the first inequality, 0 when all four
agree.  `status` is read but never influences the result. -/
def Version.cmp (a b : Version) : Int :=
  if a.major > b.major then 1
  else if a.major < b.major then -1
  else if a.minor > b.minor then 1
  else if a.minor < b.minor then -1
  else if a.micro > b.micro then 1
  else if a.micro < b.micro then -1
  else if pyMax0 a.patch > pyMax0 b.patch then 1
  else if pyMax0 a.patch < pyMax0 b.patch then -1
  else 0

/-- Python 2 rich comparison `a < b` for classic classes with `__cmp__`. -/
def Version.pyLt (a b : Version) : Bool :=
  decide (a.cmp b < 0)

/-- Python 2 rich comparison `a <= b`. -/
def Version.pyLe (a b : Version) : Bool :=
  decide (a.cmp b ≤ 0)

/-- Python 2 rich comparison `a > b`. -/
def Version.pyGt (a b : Version) : Bool :=
  decide (0 < a.cmp b)

/-- Python 2 rich comparison `a >= b`. -/
def Version.pyGe (a b : Version) : Bool :=
  decide (0 ≤ a.cmp b)

/-- Python 2 equality `a == b` through `__cmp__`. -/
def Version.pyEq (a b : Version) : Bool :=
  decide (a.cmp b = 0)

/-- An arbitrary Python value handed to `Version.__cmp__`: either another
`Version`, or any non-`Version` value (all of which lines 152-153 treat
alike). -/
inductive PyValue where
  | version (v : Version)
  | nonVersion
  deriving DecidableEq

/-- The full `Version.__cmp__` including the `isinstance` guard of lines
152-153: a non-`Version` argument yields 1. -/
def Version.cmpAny (self : Version) : PyValue → Int
  | .version other => self.cmp other
  | .nonVersion => 1

/-- Python equality of a `Version` against an arbitrary value: true exactly
when `__cmp__` returns 0. -/
def Version.eqAny (self : Version) (x : PyValue) : Bool :=
  decide (self.cmpAny x = 0)

/-- The `VersionRequirements` class: a series of predicate rules combined by
logical or. -/
structure VersionRequirements where
  rules : List (Version → Bool)

/-- `VersionRequirements.greater_than` (source lines 183-194): appends the
rule `version <= v` when inclusive, `version < v` otherwise. -/
def VersionRequirements.greater_than (vr : VersionRequirements) (version : Version)
    (inclusive : Bool) : VersionRequirements :=
  if inclusive then ⟨vr.rules ++ [fun v => version.pyLe v]⟩
  else ⟨vr.rules ++ [fun v => version.pyLt v]⟩

/-- `VersionRequirements.__init__` (source lines 178-181): starts with no
rules and, when a (truthy) version argument is supplied, calls
`greater_than` on it with the default `inclusive = True`. -/
def VersionRequirements.init (rule : Option Version) : VersionRequirements :=
  match rule with
  | none => ⟨[]⟩
  | some r => (VersionRequirements.mk []).greater_than r true

/-- `VersionRequirements.less_than` (source lines 196-207): appends the rule
`version >= v` when inclusive, `version > v` otherwise. -/
def VersionRequirements.less_than (vr : VersionRequirements) (version : Version)
    (inclusive : Bool) : VersionRequirements :=
  if inclusive then ⟨vr.rules ++ [fun v => version.pyGe v]⟩
  else ⟨vr.rules ++ [fun v => version.pyGt v]⟩

/-- `VersionRequirements.in_range` (source lines 209-226): a three-way `if /
elif / else` on the two inclusivity flags; note that the `else` branch
covers both remaining flag combinations. -/
def VersionRequirements.in_range (vr : VersionRequirements)
    (from_version to_version : Version)
    (from_inclusive to_inclusive : Bool) : VersionRequirements :=
  if from_inclusive && to_inclusive then
    ⟨vr.rules ++ [fun v => from_version.pyLe v && v.pyLe to_version]⟩
  else if from_inclusive then
    ⟨vr.rules ++ [fun v => from_version.pyLe v && v.pyLt to_version]⟩
  else
    ⟨vr.rules ++ [fun v => from_version.pyLt v && v.pyLt to_version]⟩

/-- The two shapes `Version.meets_requirements` accepts: a plain `Version`
or a `VersionRequirements` (the `isinstance` dispatch at line 131). -/
inductive Requirement where
  | ver : Version → Requirement
  | reqs : VersionRequirements → Requirement

/-- `Version.meets_requirements` (source lines 121-137): against a single
`Version` it is `self >= requirements`; against a `VersionRequirements` it
returns true at the first rule accepting `self` and false when none does. -/
def Version.meets_requirements (self : Version) : Requirement → Bool
  | .ver req => self.pyGe req
  | .reqs r => r.rules.any fun rule => rule self

/-- The module-level `safecookie_req` (source lines 228-230): an empty
`VersionRequirements`, then `in_range(Version("0.2.2.36"),
Version("0.2.3.0"))` with the default flags `(True, False)`, then
`greater_than(Version("0.2.3.13"))` with the default `True`. -/
def safecookie_req : VersionRequirements :=
  ((VersionRequirements.init none).in_range
      (Version.ofString "0.2.2.36") (Version.ofString "0.2.3.0") true false).greater_than
    (Version.ofString "0.2.3.13") true

/-- Registry entry `Requirement.AUTH_SAFECOOKIE` (source line 233). -/
def Requirement.AUTH_SAFECOOKIE : Requirement :=
  .reqs safecookie_req

/-- Registry entry `Requirement.GETINFO_CONFIG_TEXT` (source line 234). -/
def Requirement.GETINFO_CONFIG_TEXT : Requirement :=
  .ver (Version.ofString "0.2.2.7")

/-- Registry entry `Requirement.LOADCONF` (source line 235). -/
def Requirement.LOADCONF : Requirement :=
  .ver (Version.ofString "0.2.1.1")

/-- Registry entry `Requirement.TORRC_CONTROL_SOCKET` (source line 236). -/
def Requirement.TORRC_CONTROL_SOCKET : Requirement :=
  .ver (Version.ofString "0.2.0.30")

/-- Registry entry `Requirement.TORRC_DISABLE_DEBUGGER_ATTACHMENT` (source
line 237). -/
def Requirement.TORRC_DISABLE_DEBUGGER_ATTACHMENT : Requirement :=
  .ver (Version.ofString "0.2.3.9")

/-- Python `s.startswith(p)`: the first `len(p)` characters equal `p`. -/
def pyStartsWith (s p : List Char) : Bool :=
  s.take p.length == p

/-- Python `s.endswith(p)`: the last `len(p)` characters equal `p`. -/
def pyEndsWith (s p : List Char) : Bool :=
  s.drop (s.length - p.length) == p

/-- Python `s.find(c, start)`: index of the first occurrence of `c` at
position `start` or later, and -1 when there is none. -/
def pyFind (s : List Char) (c : Char) (start : Nat) : Int :=
  match (s.drop start).findIdx? fun x => x == c with
  | some i => ((start + i : Nat) : Int)
  | none => -1

/-- Python slice `s[start:stop]` with a non-negative `start` and a possibly
negative `stop` (negative indices count from the end, clamped at 0). -/
def pySlice (s : List Char) (start : Nat) (stop : Int) : List Char :=
  let stopN : Nat := if stop < 0 then s.length - (-stop).toNat else stop.toNat
  (s.take stopN).drop start

/-- The expected marker beginning the version report line, `"Tor version "`
(12 characters). -/
def torVersionMarker : List Char :=
  "Tor version ".toList

/-- The `IOError`s `get_system_tor_version` can raise: a wrapped `OSError`
from running the command, empty output, an unexpected last line, or a
wrapped `ValueError` from `Version` on the extracted token. -/
inductive VersionQueryFailed where
  | osError
  | emptyOutput (version_cmd : List Char)
  | unexpectedOutput (version_cmd last_line : List Char)
  | malformedVersion (version_str : List Char)
  deriving DecidableEq, Repr

/-- The `get_system_tor_version` function (source lines 44-81).  The
external collaborator `stem.util.system.call` is passed in as `call`
(`none` models an `OSError`, `some lines` the produced output lines), and
the module-level dict `VERSION_CACHE` is passed in and returned explicitly
as an association list.  The returned cache equals the input cache except
that a successful uncached resolution prepends its entry. -/
def get_system_tor_version (call : List Char → Option (List (List Char)))
    (cache : List (List Char × Version)) (tor_cmd : List Char) :
    Except VersionQueryFailed Version × List (List Char × Version) :=
  match cache.lookup tor_cmd with
  | some v => (.ok v, cache)
  | none =>
    let version_cmd := tor_cmd ++ " --version".toList
    match call version_cmd with
    | none => (.error .osError, cache)
    | some version_output =>
      match version_output.getLast? with
      | none => (.error (.emptyOutput version_cmd), cache)
      | some last_line =>
        if pyStartsWith last_line torVersionMarker && pyEndsWith last_line ['.'] then
          match parseVersion (pySlice last_line 12 (pyFind last_line ' ' 12)) with
          | .ok v => (.ok v, (tor_cmd, v) :: cache)
          | .error e => (.error (.malformedVersion e), cache)
        else (.error (.unexpectedOutput version_cmd last_line), cache)

/-- Specification-side predicate: a non-empty string of decimal digits. -/
def IsDigitsP (l : List Char) : Prop :=
  l ≠ [] ∧ ∀ c ∈ l, c.isDigit = true

/-- Specification-side version grammar, written from the spec's words: the
anchored form `major.minor.micro[.patch][-status]` with non-negative decimal
integer components and a non-empty non-whitespace status token after the
dash. -/
def SpecGrammarCore (s : List Char) : Prop :=
  ∃ maj mnr mic pat st : List Char,
    s = maj ++ '.' :: mnr ++ '.' :: mic ++ pat ++ st ∧
    IsDigitsP maj ∧ IsDigitsP mnr ∧ IsDigitsP mic ∧
    (pat = [] ∨ ∃ p, pat = '.' :: p ∧ IsDigitsP p) ∧
    (st = [] ∨ ∃ t, st = '-' :: t ∧ t ≠ [] ∧ ∀ c ∈ t, isPySpace c = false)

/-- Amended specification-side grammar core: as `SpecGrammarCore` but the
status token after the dash may be empty (the regex uses `\S*`). -/
def AmendedGrammarCore (s : List Char) : Prop :=
  ∃ maj mnr mic pat st : List Char,
    s = maj ++ '.' :: mnr ++ '.' :: mic ++ pat ++ st ∧
    IsDigitsP maj ∧ IsDigitsP mnr ∧ IsDigitsP mic ∧
    (pat = [] ∨ ∃ p, pat = '.' :: p ∧ IsDigitsP p) ∧
    (st = [] ∨ ∃ t, st = '-' :: t ∧ ∀ c ∈ t, isPySpace c = false)

/-- Amended specification-side grammar: the core form, optionally followed
by one final newline (Python's `$` anchor also matches just before a
trailing newline). -/
def AmendedGrammar (s : List Char) : Prop :=
  AmendedGrammarCore s ∨ ∃ t, s = t ++ ['\n'] ∧ AmendedGrammarCore t

/-- Specification-side comparison key of a version: the 4-tuple
`(major, minor, micro, patch-or-0)`. -/
def vkey (v : Version) : Nat × Nat × Nat × Nat :=
  (v.major, v.minor, v.micro, v.patch.getD 0)

/-- Specification-side strict lexicographic order on 4-tuples of naturals:
the first unequal component determines the result. -/
def TupLexLt (x y : Nat × Nat × Nat × Nat) : Prop :=
  x.1 < y.1 ∨ (x.1 = y.1 ∧ (x.2.1 < y.2.1 ∨ (x.2.1 = y.2.1 ∧
    (x.2.2.1 < y.2.2.1 ∨ (x.2.2.1 = y.2.2.1 ∧ x.2.2.2 < y.2.2.2)))))

/-- Helper to render an optional patch group back to its matched text. -/
def patRepr : Option (List Char) → List Char
  | none => []
  | some p => '.' :: p

/-- Helper to render an optional status group back to its matched text. -/
def stRepr : Option (List Char) → List Char
  | none => []
  | some t => '-' :: t

/-- Concrete notice line from the source's output example (line 65). -/
def exNoticeLine : List Char :=
  "Oct 21 07:19:27.438 [notice] Tor v0.2.1.30. This is experimental software. Do not rely on it for strong anonymity. (Running on Linux i686)".toList

/-- Concrete canonical two-line output of `tor --version` as documented in the
source's comment (lines 64-66): the last line carries nothing after the
version token's period. -/
def exGoodOutput : List (List Char) :=
  [exNoticeLine, "Tor version 0.2.1.30.".toList]

/-- Process collaborator always producing the canonical output. -/
def exGoodCall : List Char → Option (List (List Char)) :=
  fun _ => some exGoodOutput

/-- One-line output whose last line carries trailing descriptive text after
the version token, as in the specification's resolver example. -/
def exBadOutput : List (List Char) :=
  ["Tor version 0.2.1.30. This is experimental software. Do not rely on it for strong anonymity.".toList]

/-- Process collaborator always producing the trailing-text output. -/
def exBadCall : List Char → Option (List (List Char)) :=
  fun _ => some exBadOutput

/-- The default invocation target `"tor"`. -/
def exTorCmd : List Char :=
  "tor".toList

/-- The `Version` value parsed from `"0.2.1.30"`. -/
def exVersion : Version :=
  ⟨"0.2.1.30".toList, 0, 2, 1, some 30, none⟩

theorem head_dropWhile_false (p : Char → Bool) :
    ∀ (l : List Char) (c : Char), (l.dropWhile p).head? = some c → p c = false := by
  intro l
  induction l with
  | nil => intro c h; simp [List.dropWhile] at h
  | cons a t ih =>
    intro c h
    by_cases hp : p a
    · rw [List.dropWhile_cons_of_pos hp] at h
      exact ih c h
    · rw [List.dropWhile_cons_of_neg hp] at h
      simp at h
      rw [← h]
      exact Bool.eq_false_iff.mpr hp

theorem takeWhile_all_append (p : Char → Bool) (d r : List Char)
    (hall : ∀ c ∈ d, p c = true) (hr : ∀ c, r.head? = some c → p c = false) :
    (d ++ r).takeWhile p = d ∧ (d ++ r).dropWhile p = r := by
  induction d with
  | nil =>
    simp only [List.nil_append]
    cases r with
    | nil => simp
    | cons c t =>
      have hc : p c = false := hr c rfl
      simp [List.takeWhile_cons, List.dropWhile_cons, hc]
  | cons a d ih =>
    have ha : p a = true := hall a (by simp)
    have ih' := ih fun c hc => hall c (by simp [hc])
    simp [List.takeWhile_cons, List.dropWhile_cons, ha, ih'.1, ih'.2]

theorem reDigits1_eq_some {s d r : List Char} (h : reDigits1 s = some (d, r)) :
    s = d ++ r ∧ d ≠ [] ∧ (∀ c ∈ d, c.isDigit = true) ∧
      (∀ c, r.head? = some c → c.isDigit = false) := by
  unfold reDigits1 at h
  cases htw : s.takeWhile Char.isDigit with
  | nil => rw [htw] at h; cases h
  | cons a t =>
    rw [htw] at h
    injection h with h
    injection h with h1 h2
    subst h1; subst h2
    refine ⟨?_, by simp, ?_, ?_⟩
    · rw [← htw]
      exact (List.takeWhile_append_dropWhile Char.isDigit s).symm
    · intro c hc
      rw [← htw] at hc
      exact List.mem_takeWhile_imp hc
    · exact fun c => head_dropWhile_false Char.isDigit s c

theorem reDigits1_complete (d r : List Char) (hd : d ≠ [])
    (hall : ∀ c ∈ d, c.isDigit = true) (hr : ∀ c, r.head? = some c → c.isDigit = false) :
    reDigits1 (d ++ r) = some (d, r) := by
  have h := takeWhile_all_append Char.isDigit d r hall hr
  unfold reDigits1
  rw [h.1, h.2]
  cases d with
  | nil => exact absurd rfl hd
  | cons a t => rfl

theorem endCheck_iff (l : List Char) : endCheck l = true ↔ l = [] ∨ l = ['\n'] := by
  unfold endCheck
  simp

theorem statusEnd_sound {rest : List Char} {st : Option (List Char)}
    (h : statusEnd rest = some st) :
    ∃ tail, (tail = [] ∨ tail = ['\n']) ∧
      ((st = none ∧ rest = tail) ∨
        (∃ t, st = some t ∧ rest = '-' :: (t ++ tail) ∧ ∀ c ∈ t, isPySpace c = false)) := by
  cases rest with
  | nil =>
    simp only [statusEnd] at h
    rw [if_pos (by rfl)] at h
    injection h with h
    exact ⟨[], Or.inl rfl, Or.inl ⟨h.symm, rfl⟩⟩
  | cons c r =>
    simp only [statusEnd] at h
    by_cases hc : c = '-'
    · subst hc
      rw [if_pos rfl] at h
      by_cases he : endCheck (r.dropWhile fun x => !isPySpace x) = true
      · rw [if_pos he] at h
        injection h with h
        refine ⟨r.dropWhile fun x => !isPySpace x, (endCheck_iff _).mp he, Or.inr ?_⟩
        refine ⟨r.takeWhile fun x => !isPySpace x, h.symm, ?_, ?_⟩
        · rw [List.takeWhile_append_dropWhile]
        · intro c hc
          have := List.mem_takeWhile_imp hc
          simpa using this
      · rw [if_neg he] at h
        cases h
    · rw [if_neg hc] at h
      by_cases he : endCheck (c :: r) = true
      · rw [if_pos he] at h
        injection h with h
        exact ⟨c :: r, (endCheck_iff _).mp he, Or.inl ⟨h.symm, rfl⟩⟩
      · rw [if_neg he] at h
        cases h

theorem statusEnd_tail (tail : List Char) (htail : tail = [] ∨ tail = ['\n']) :
    statusEnd tail = some none := by
  rcases htail with h | h <;> subst h <;> rfl

theorem statusEnd_dash (t tail : List Char) (ht : ∀ c ∈ t, isPySpace c = false)
    (htail : tail = [] ∨ tail = ['\n']) :
    statusEnd ('-' :: (t ++ tail)) = some (some t) := by
  have hall : ∀ c ∈ t, (fun x => !isPySpace x) c = true := by
    intro c hc
    simp [ht c hc]
  have hhd : ∀ c, tail.head? = some c → (fun x => !isPySpace x) c = false := by
    intro c hcl
    rcases htail with h | h <;> subst h
    · simp at hcl
    · simp at hcl
      subst hcl
      simp [isPySpace]
  have h := takeWhile_all_append (fun x => !isPySpace x) t tail hall hhd
  simp only [statusEnd, if_true]
  rw [h.1, h.2, if_pos ((endCheck_iff tail).mpr htail)]

theorem reDot_eq_some {x r : List Char} (h : reDot x = some r) : x = '.' :: r := by
  cases x with
  | nil => cases h
  | cons c t =>
    simp only [reDot] at h
    by_cases hc : c = '.'
    · rw [if_pos hc] at h
      injection h with h
      subst hc; subst h; rfl
    · rw [if_neg hc] at h
      cases h

theorem parseCore_sound {s : List Char} {g : RegexGroups} (h : parseCore s = some g) :
    ∃ tail, (tail = [] ∨ tail = ['\n']) ∧
      s = g.major ++ ('.' :: (g.minor ++ ('.' :: (g.micro ++
          (patRepr g.patch ++ (stRepr g.status ++ tail)))))) ∧
      IsDigitsP g.major ∧ IsDigitsP g.minor ∧ IsDigitsP g.micro ∧
      (∀ p, g.patch = some p → IsDigitsP p) ∧
      (∀ t, g.status = some t → ∀ c ∈ t, isPySpace c = false) := by
  unfold parseCore at h
  cases h1 : reDigits1 s with
  | none => simp only [h1] at h; exact Option.noConfusion h
  | some p1 =>
  obtain ⟨d1, r1⟩ := p1
  simp only [h1] at h
  obtain ⟨hs1, hd1ne, hd1dig, -⟩ := reDigits1_eq_some h1
  cases h2 : reDot r1 with
  | none => simp only [h2] at h; exact Option.noConfusion h
  | some r2 =>
  simp only [h2] at h
  have hr1 : r1 = '.' :: r2 := reDot_eq_some h2
  cases h3 : reDigits1 r2 with
  | none => simp only [h3] at h; exact Option.noConfusion h
  | some p2 =>
  obtain ⟨d2, r3⟩ := p2
  simp only [h3] at h
  obtain ⟨hs2, hd2ne, hd2dig, -⟩ := reDigits1_eq_some h3
  cases h4 : reDot r3 with
  | none => simp only [h4] at h; exact Option.noConfusion h
  | some r4 =>
  simp only [h4] at h
  have hr3 : r3 = '.' :: r4 := reDot_eq_some h4
  cases h5 : reDigits1 r4 with
  | none => simp only [h5] at h; exact Option.noConfusion h
  | some p3 =>
  obtain ⟨d3, r5⟩ := p3
  simp only [h5] at h
  obtain ⟨hs3, hd3ne, hd3dig, -⟩ := reDigits1_eq_some h5
  cases h6 : reDot r5 with
  | none =>
    simp only [h6] at h
    rw [Option.map_eq_some'] at h
    obtain ⟨st, hst, hg⟩ := h
    obtain ⟨tail, htail, hrest⟩ := statusEnd_sound hst
    subst hg
    refine ⟨tail, htail, ?_, ⟨hd1ne, hd1dig⟩, ⟨hd2ne, hd2dig⟩, ⟨hd3ne, hd3dig⟩, ?_, ?_⟩
    · rcases hrest with ⟨hstn, hr5⟩ | ⟨t, hsts, hr5, -⟩
      · subst hstn
        simp only [patRepr, stRepr, List.nil_append]
        rw [hs1, hr1, hs2, hr3, hs3, hr5]
      · subst hsts
        simp only [patRepr, stRepr, List.nil_append]
        rw [hs1, hr1, hs2, hr3, hs3, hr5]
        simp
    · intro p hp
      cases hp
    · rcases hrest with ⟨hstn, -⟩ | ⟨t, hsts, -, hns⟩
      · subst hstn
        intro t ht
        cases ht
      · subst hsts
        intro t' ht'
        injection ht' with ht'
        subst ht'
        exact hns
  | some r6 =>
    simp only [h6] at h
    have hr5 : r5 = '.' :: r6 := reDot_eq_some h6
    cases h7 : reDigits1 r6 with
    | none =>
      simp only [h7] at h
      rw [Option.map_eq_some'] at h
      obtain ⟨st, hst, hg⟩ := h
      obtain ⟨tail, htail, hrest⟩ := statusEnd_sound hst
      exfalso
      rcases hrest with ⟨-, hr5'⟩ | ⟨t, -, hr5', -⟩ <;> rw [hr5] at hr5'
      · rcases htail with ht | ht <;> rw [ht] at hr5' <;> cases hr5'
      · cases hr5'
    | some p4 =>
      obtain ⟨d4, r7⟩ := p4
      simp only [h7] at h
      obtain ⟨hs4, hd4ne, hd4dig, -⟩ := reDigits1_eq_some h7
      rw [Option.map_eq_some'] at h
      obtain ⟨st, hst, hg⟩ := h
      obtain ⟨tail, htail, hrest⟩ := statusEnd_sound hst
      subst hg
      refine ⟨tail, htail, ?_, ⟨hd1ne, hd1dig⟩, ⟨hd2ne, hd2dig⟩, ⟨hd3ne, hd3dig⟩, ?_, ?_⟩
      · rcases hrest with ⟨hstn, hr7⟩ | ⟨t, hsts, hr7, -⟩
        · subst hstn
          simp only [patRepr, stRepr, List.nil_append]
          rw [hs1, hr1, hs2, hr3, hs3, hr5, hs4, hr7]
          simp
        · subst hsts
          simp only [patRepr, stRepr, List.nil_append]
          rw [hs1, hr1, hs2, hr3, hs3, hr5, hs4, hr7]
          simp
      · intro p hp
        injection hp with hp
        subst hp
        exact ⟨hd4ne, hd4dig⟩
      · rcases hrest with ⟨hstn, -⟩ | ⟨t, hsts, -, hns⟩
        · subst hstn
          intro t ht
          cases ht
        · subst hsts
          intro t' ht'
          injection ht' with ht'
          subst ht'
          exact hns

theorem head_not_digit_dot (x : List Char) :
    ∀ c, ('.' :: x).head? = some c → c.isDigit = false := by
  intro c h
  injection h with h
  subst h
  decide

theorem head_not_digit_repr (pat st : Option (List Char)) (tail : List Char)
    (htail : tail = [] ∨ tail = ['\n']) :
    ∀ c, (patRepr pat ++ (stRepr st ++ tail)).head? = some c → c.isDigit = false := by
  intro c h
  cases pat with
  | some p =>
    simp only [patRepr, List.cons_append, List.head?_cons] at h
    injection h with h
    subst h
    decide
  | none =>
    simp only [patRepr, List.nil_append] at h
    cases st with
    | some t =>
      simp only [stRepr, List.cons_append, List.head?_cons] at h
      injection h with h
      subst h
      decide
    | none =>
      simp only [stRepr, List.nil_append] at h
      rcases htail with ht | ht <;> subst ht <;> simp at h
      subst h
      decide

theorem head_not_digit_st (st : Option (List Char)) (tail : List Char)
    (htail : tail = [] ∨ tail = ['\n']) :
    ∀ c, (stRepr st ++ tail).head? = some c → c.isDigit = false := by
  intro c h
  cases st with
  | some t =>
    simp only [stRepr, List.cons_append, List.head?_cons] at h
    injection h with h
    subst h
    decide
  | none =>
    simp only [stRepr, List.nil_append] at h
    rcases htail with ht | ht <;> subst ht <;> simp at h
    subst h
    decide

theorem reDot_st_none (st : Option (List Char)) (tail : List Char)
    (htail : tail = [] ∨ tail = ['\n']) :
    reDot (stRepr st ++ tail) = none := by
  cases st with
  | some t => rfl
  | none =>
    rcases htail with ht | ht <;> subst ht <;> rfl

theorem statusEnd_repr (st : Option (List Char)) (tail : List Char)
    (hst : ∀ t, st = some t → ∀ c ∈ t, isPySpace c = false)
    (htail : tail = [] ∨ tail = ['\n']) :
    statusEnd (stRepr st ++ tail) = some st := by
  cases st with
  | none => exact statusEnd_tail tail htail
  | some t => exact statusEnd_dash t tail (hst t rfl) htail

theorem parseCore_complete (maj mnr mic : List Char) (pat st : Option (List Char))
    (tail : List Char)
    (hmaj : IsDigitsP maj) (hmnr : IsDigitsP mnr) (hmic : IsDigitsP mic)
    (hpat : ∀ p, pat = some p → IsDigitsP p)
    (hst : ∀ t, st = some t → ∀ c ∈ t, isPySpace c = false)
    (htail : tail = [] ∨ tail = ['\n']) :
    parseCore (maj ++ ('.' :: (mnr ++ ('.' :: (mic ++
        (patRepr pat ++ (stRepr st ++ tail))))))) = some ⟨maj, mnr, mic, pat, st⟩ := by
  have e1 : reDigits1 (maj ++ ('.' :: (mnr ++ ('.' :: (mic ++
      (patRepr pat ++ (stRepr st ++ tail))))))) =
      some (maj, '.' :: (mnr ++ ('.' :: (mic ++ (patRepr pat ++ (stRepr st ++ tail)))))) :=
    reDigits1_complete maj _ hmaj.1 hmaj.2 (head_not_digit_dot _)
  have e2 : reDigits1 (mnr ++ ('.' :: (mic ++ (patRepr pat ++ (stRepr st ++ tail))))) =
      some (mnr, '.' :: (mic ++ (patRepr pat ++ (stRepr st ++ tail)))) :=
    reDigits1_complete mnr _ hmnr.1 hmnr.2 (head_not_digit_dot _)
  have e3 : reDigits1 (mic ++ (patRepr pat ++ (stRepr st ++ tail))) =
      some (mic, patRepr pat ++ (stRepr st ++ tail)) :=
    reDigits1_complete mic _ hmic.1 hmic.2 (head_not_digit_repr pat st tail htail)
  have edot : ∀ x : List Char, reDot ('.' :: x) = some x := fun x => rfl
  cases pat with
  | none =>
    have e4 : reDot (patRepr none ++ (stRepr st ++ tail)) = none := by
      simp only [patRepr, List.nil_append]
      exact reDot_st_none st tail htail
    have e5 : statusEnd (patRepr none ++ (stRepr st ++ tail)) = some st := by
      simp only [patRepr, List.nil_append]
      exact statusEnd_repr st tail hst htail
    simp only [parseCore, e1, edot, e2, e3, e4, e5, Option.map_some']
  | some p =>
    have e4 : reDot (patRepr (some p) ++ (stRepr st ++ tail)) =
        some (p ++ (stRepr st ++ tail)) := by
      simp only [patRepr, List.cons_append]
      exact edot _
    have e5 : reDigits1 (p ++ (stRepr st ++ tail)) = some (p, stRepr st ++ tail) :=
      reDigits1_complete p _ (hpat p rfl).1 (hpat p rfl).2 (head_not_digit_st st tail htail)
    have e6 : statusEnd (stRepr st ++ tail) = some st := statusEnd_repr st tail hst htail
    simp only [parseCore, e1, edot, e2, e3, e4, e5, e6, Option.map_some']

theorem parse_ok_iff_grammar (s : List Char) :
    (∃ v, parseVersion s = .ok v) ↔ AmendedGrammar s := by
  constructor
  · rintro ⟨v, hv⟩
    unfold parseVersion at hv
    cases hc : parseCore s with
    | none => rw [hc] at hv; cases hv
    | some g =>
      obtain ⟨tail, htail, hs, hmaj, hmnr, hmic, hpat, hst⟩ := parseCore_sound hc
      have hpat' : patRepr g.patch = [] ∨
          ∃ p, patRepr g.patch = '.' :: p ∧ IsDigitsP p := by
        cases hgp : g.patch with
        | none => exact Or.inl rfl
        | some p => exact Or.inr ⟨p, rfl, hpat p hgp⟩
      have hst' : stRepr g.status = [] ∨
          ∃ t, stRepr g.status = '-' :: t ∧ ∀ c ∈ t, isPySpace c = false := by
        cases hgs : g.status with
        | none => exact Or.inl rfl
        | some t => exact Or.inr ⟨t, rfl, hst t hgs⟩
      rcases htail with ht | ht
      · subst ht
        left
        refine ⟨g.major, g.minor, g.micro, patRepr g.patch, stRepr g.status,
          ?_, hmaj, hmnr, hmic, hpat', hst'⟩
        rw [hs]
        simp [List.append_assoc]
      · subst ht
        right
        refine ⟨g.major ++ ('.' :: (g.minor ++ ('.' :: (g.micro ++
          (patRepr g.patch ++ stRepr g.status))))), ?_, ?_⟩
        · rw [hs]
          simp [List.append_assoc]
        · refine ⟨g.major, g.minor, g.micro, patRepr g.patch, stRepr g.status,
            ?_, hmaj, hmnr, hmic, hpat', hst'⟩
          simp [List.append_assoc]
  · intro h
    have key : ∀ u : List Char, AmendedGrammarCore u → ∀ tail, (tail = [] ∨ tail = ['\n']) →
        ∃ g, parseCore (u ++ tail) = some g := by
      rintro u ⟨maj, mnr, mic, pat, st, hu, hmaj, hmnr, hmic, hpat, hst⟩ tail htail
      have hpo : ∃ po : Option (List Char), pat = patRepr po ∧
          ∀ p, po = some p → IsDigitsP p := by
        rcases hpat with hpe | ⟨p, hpp, hdp⟩
        · exact ⟨none, hpe, by intro p hp; cases hp⟩
        · refine ⟨some p, hpp, ?_⟩
          intro p' hp'
          injection hp' with hp'
          subst hp'
          exact hdp
      have hso : ∃ so : Option (List Char), st = stRepr so ∧
          ∀ t, so = some t → ∀ c ∈ t, isPySpace c = false := by
        rcases hst with hse | ⟨t, hts, hns⟩
        · exact ⟨none, hse, by intro t ht; cases ht⟩
        · refine ⟨some t, hts, ?_⟩
          intro t' ht'
          injection ht' with ht'
          subst ht'
          exact hns
      obtain ⟨po, hpo1, hpo2⟩ := hpo
      obtain ⟨so, hso1, hso2⟩ := hso
      refine ⟨⟨maj, mnr, mic, po, so⟩, ?_⟩
      have hshape : u ++ tail = maj ++ ('.' :: (mnr ++ ('.' :: (mic ++
          (patRepr po ++ (stRepr so ++ tail)))))) := by
        rw [hu, hpo1, hso1]
        simp [List.append_assoc]
      rw [hshape]
      exact parseCore_complete maj mnr mic po so tail hmaj hmnr hmic hpo2 hso2 htail
    have hsome : ∃ g, parseCore s = some g := by
      rcases h with hcore | ⟨t, hs, hcore⟩
      · have := key s hcore [] (Or.inl rfl)
        simpa using this
      · rw [hs]
        exact key t hcore ['\n'] (Or.inr rfl)
    obtain ⟨g, hg⟩ := hsome
    refine ⟨⟨s, digitsToNat g.major, digitsToNat g.minor, digitsToNat g.micro,
      g.patch.map digitsToNat, g.status⟩, ?_⟩
    unfold parseVersion
    rw [hg]

theorem pyMax0_eq_getD (x : Option Nat) : pyMax0 x = x.getD 0 := by
  cases x <;> rfl

theorem cmp_vals (a b : Version) : a.cmp b = -1 ∨ a.cmp b = 0 ∨ a.cmp b = 1 := by
  unfold Version.cmp
  split_ifs <;> simp

theorem cmp_eq_zero_iff (a b : Version) : a.cmp b = 0 ↔ vkey a = vkey b := by
  unfold Version.cmp vkey
  rw [← pyMax0_eq_getD, ← pyMax0_eq_getD]
  simp only [Prod.ext_iff]
  split_ifs <;> simp_all <;> omega

theorem cmp_eq_negone_iff (a b : Version) :
    a.cmp b = -1 ↔ TupLexLt (vkey a) (vkey b) := by
  unfold Version.cmp vkey TupLexLt
  rw [← pyMax0_eq_getD, ← pyMax0_eq_getD]
  split_ifs <;> simp_all <;> omega

theorem cmp_eq_one_iff (a b : Version) :
    a.cmp b = 1 ↔ TupLexLt (vkey b) (vkey a) := by
  unfold Version.cmp vkey TupLexLt
  rw [← pyMax0_eq_getD, ← pyMax0_eq_getD]
  split_ifs <;> simp_all <;> omega

theorem version_cmp_swap (a b : Version) : a.cmp b = -(b.cmp a) := by
  unfold Version.cmp
  split_ifs <;> omega

theorem findIdx?_none_of_all (p : Char → Bool) :
    ∀ l : List Char, (∀ c ∈ l, p c = false) → l.findIdx? p = none := by
  intro l
  induction l with
  | nil => intro; simp
  | cons a t ih =>
    intro h
    have ha : p a = false := h a (by simp)
    rw [List.findIdx?_cons, ha]
    simp [ih fun c hc => h c (by simp [hc])]

theorem pyStartsWith_marker (x : List Char) :
    pyStartsWith (torVersionMarker ++ x) torVersionMarker = true := by
  unfold pyStartsWith
  rw [List.take_left]
  simp

theorem pyEndsWith_dot (x : List Char) : pyEndsWith (x ++ ['.']) ['.'] = true := by
  unfold pyEndsWith
  have h1 : (x ++ ['.']).length - (['.'] : List Char).length = x.length := by simp
  rw [h1, List.drop_left]
  simp

theorem pyFind_marker_none (t : List Char) (ht : ' ' ∉ t) :
    pyFind (torVersionMarker ++ (t ++ ['.'])) ' ' 12 = -1 := by
  unfold pyFind
  have h12 : (12 : Nat) = torVersionMarker.length := rfl
  rw [h12, List.drop_left]
  have hall : ∀ c ∈ t ++ ['.'], (fun x => x == ' ') c = false := by
    intro c hc
    rcases List.mem_append.mp hc with hct | hcd
    · simp only [beq_eq_false_iff_ne, ne_eq]
      intro hce
      subst hce
      exact ht hct
    · simp at hcd
      subst hcd
      decide
  rw [findIdx?_none_of_all _ _ hall]

theorem pySlice_marker (t : List Char) :
    pySlice (torVersionMarker ++ (t ++ ['.'])) 12 (-1) = t := by
  unfold pySlice
  have hneg : ((-1 : Int) < 0) = True := by simp
  simp only [hneg, if_true]
  have hone : (-(-1 : Int)).toNat = 1 := rfl
  rw [hone]
  have hlen : (torVersionMarker ++ (t ++ ['.'])).length - 1 =
      torVersionMarker.length + t.length := by
    simp [torVersionMarker]
    omega
  rw [hlen, List.take_append]
  have htake : List.take t.length (t ++ ['.']) = t := List.take_left t ['.']
  rw [htake]
  have h12 : (12 : Nat) = torVersionMarker.length := rfl
  rw [h12, List.drop_left]

theorem resolver_happy (call : List Char → Option (List (List Char)))
    (cache : List (List Char × Version)) (cmd t : List Char) (v : Version)
    (out : List (List Char))
    (hc : cache.lookup cmd = none)
    (hcall : call (cmd ++ " --version".toList) = some out)
    (hlast : out.getLast? = some (torVersionMarker ++ (t ++ ['.'])))
    (ht : ' ' ∉ t) (hv : parseVersion t = .ok v) :
    get_system_tor_version call cache cmd = (.ok v, (cmd, v) :: cache) := by
  unfold get_system_tor_version
  simp only [hc, hcall, hlast]
  rw [if_pos (by rw [pyStartsWith_marker, ← List.append_assoc, pyEndsWith_dot]; rfl)]
  rw [pyFind_marker_none t ht, pySlice_marker, hv]

theorem resolver_cases (call : List Char → Option (List (List Char)))
    (cache : List (List Char × Version)) (cmd : List Char) :
    (∃ v, cache.lookup cmd = some v ∧
        ∀ call2, get_system_tor_version call2 cache cmd = (.ok v, cache)) ∨
    (cache.lookup cmd = none ∧
      ((∃ v, get_system_tor_version call cache cmd = (.ok v, (cmd, v) :: cache)) ∨
        (∃ e, get_system_tor_version call cache cmd = (.error e, cache)))) := by
  cases hc : cache.lookup cmd with
  | some v =>
    left
    refine ⟨v, rfl, ?_⟩
    intro call2
    unfold get_system_tor_version
    simp only [hc]
  | none =>
    right
    refine ⟨rfl, ?_⟩
    unfold get_system_tor_version
    simp only [hc]
    cases hcall : call (cmd ++ " --version".toList) with
    | none =>
      simp only [hcall]
      exact Or.inr ⟨.osError, rfl⟩
    | some out =>
      simp only [hcall]
      cases hlast : out.getLast? with
      | none =>
        simp only [hlast]
        exact Or.inr ⟨.emptyOutput (cmd ++ " --version".toList), rfl⟩
      | some last_line =>
        simp only [hlast]
        by_cases hif : (pyStartsWith last_line torVersionMarker &&
            pyEndsWith last_line ['.']) = true
        · rw [if_pos hif]
          cases hp : parseVersion (pySlice last_line 12 (pyFind last_line ' ' 12)) with
          | ok v =>
            simp only [hp]
            exact Or.inl ⟨v, rfl⟩
          | error e =>
            simp only [hp]
            exact Or.inr ⟨.malformedVersion e, rfl⟩
        · rw [if_neg hif]
          exact Or.inr ⟨.unexpectedOutput (cmd ++ " --version".toList) last_line, rfl⟩

theorem lookup_cons_self (cmd : List Char) (v : Version)
    (cache : List (List Char × Version)) :
    List.lookup cmd ((cmd, v) :: cache) = some v := by
  simp [List.lookup]

/-- Claim C7: `get_system_tor_version` caches a result only on success.  A
hit in the cache is returned for any process collaborator at all (so no
external invocation can influence the result); a successful resolution
stores the version under the invocation target, after which any further
call returns it from the cache; and every failing call returns the cache
unchanged. -/
theorem c7_cache_discipline (call : List Char → Option (List (List Char)))
    (cache : List (List Char × Version)) (cmd : List Char) :
    (∀ v, cache.lookup cmd = some v →
        ∀ call2, get_system_tor_version call2 cache cmd = (.ok v, cache)) ∧
    (∀ v cache2, get_system_tor_version call cache cmd = (.ok v, cache2) →
        cache2.lookup cmd = some v ∧
        ∀ call2, get_system_tor_version call2 cache2 cmd = (.ok v, cache2)) ∧
    (∀ e cache2, get_system_tor_version call cache cmd = (.error e, cache2) →
        cache2 = cache) := by
  refine ⟨?_, ?_, ?_⟩
  · intro v hv call2
    unfold get_system_tor_version
    simp only [hv]
  · intro v cache2 hres
    rcases resolver_cases call cache cmd with ⟨w, hw, hall⟩ | ⟨hnone, hsub⟩
    · have h := hall call
      rw [hres, Prod.mk.injEq] at h
      obtain ⟨h1, h2⟩ := h
      injection h1 with h1
      subst h1
      subst h2
      exact ⟨hw, fun call2 => hall call2⟩
    · rcases hsub with ⟨w, hw⟩ | ⟨e, he⟩
      · rw [hres, Prod.mk.injEq] at hw
        obtain ⟨h1, h2⟩ := hw
        injection h1 with h1
        subst h1
        subst h2
        refine ⟨lookup_cons_self cmd v cache, ?_⟩
        intro call2
        unfold get_system_tor_version
        simp only [lookup_cons_self cmd v cache]
      · rw [hres, Prod.mk.injEq] at he
        injection he.1
  · intro e cache2 hres
    rcases resolver_cases call cache cmd with ⟨w, hw, hall⟩ | ⟨hnone, hsub⟩
    · have h := hall call
      rw [hres, Prod.mk.injEq] at h
      injection h.1
    · rcases hsub with ⟨w, hw⟩ | ⟨e', he⟩
      · rw [hres, Prod.mk.injEq] at hw
        injection hw.1
      · rw [hres, Prod.mk.injEq] at he
        exact he.2

/-- Claim C1 (counterexample): for the specification's own example last line
"Tor version 0.2.1.30. This is experimental software..." — which starts
with the 12-character marker and ends with a period — the resolver does not
return version 0.2.1.30: the substring between the marker and the first
following space is "0.2.1.30." (it retains the version token's trailing
period), which is malformed, so the call fails. -/
theorem c1_trailing_text_fails :
    get_system_tor_version exBadCall [] exTorCmd =
      (.error (.malformedVersion ("0.2.1.30.".toList)), []) ∧
    (get_system_tor_version exBadCall [] exTorCmd).1 ≠ .ok exVersion := by
  refine ⟨rfl, ?_⟩
  intro h
  rw [show (get_system_tor_version exBadCall [] exTorCmd).1 =
    .error (.malformedVersion ("0.2.1.30.".toList)) from rfl] at h
  injection h

/-- Claim C1 (amended): when the uncached invocation's output has last line
exactly `"Tor version " ++ t ++ "."` with no space after the marker, the
resolver drops the final character, yielding the token `t`, and returns its
parse, caching it; for the trailing-text example line, the extracted token
keeps the version's trailing period and the call fails. -/
theorem c1_version_extraction :
    (∀ (call : List Char → Option (List (List Char)))
        (cache : List (List Char × Version)) (cmd t : List Char)
        (out : List (List Char)) (v : Version),
        cache.lookup cmd = none →
        call (cmd ++ " --version".toList) = some out →
        out.getLast? = some (torVersionMarker ++ (t ++ ['.'])) →
        ' ' ∉ t →
        parseVersion t = .ok v →
        get_system_tor_version call cache cmd = (.ok v, (cmd, v) :: cache)) ∧
    get_system_tor_version exBadCall [] exTorCmd =
      (.error (.malformedVersion ("0.2.1.30.".toList)), []) :=
  ⟨fun call cache cmd t out v hc hcall hlast ht hv =>
    resolver_happy call cache cmd t v out hc hcall hlast ht hv, rfl⟩

/-- Witness for C1's amended theorem: the canonical two-line output with
last line "Tor version 0.2.1.30." resolves to version 0.2.1.30 and caches
it under "tor". -/
theorem c1_version_extraction_witness :
    get_system_tor_version exGoodCall [] exTorCmd =
      (.ok exVersion, [(exTorCmd, exVersion)]) :=
  c1_version_extraction.1 exGoodCall [] exTorCmd ("0.2.1.30".toList)
    exGoodOutput exVersion rfl rfl rfl (by decide) rfl

/-- Claim C2 (code bug): `in_range` with `from_inclusive = false` and
`to_inclusive = true` takes the `else` branch of lines 219-224, which tests
`from_version < v < to_version` and so ignores the documented upper-bound
inclusivity: at the upper bound itself, where the claim (and the method's
own docstring) require a match, the rule reports false even though both of
the claim's side conditions (`low < v` and `v <= high`) hold. -/
theorem c2_in_range_ignores_to_inclusive :
    (Version.ofString "2.0.0").meets_requirements
      (.reqs ((VersionRequirements.init none).in_range (Version.ofString "1.0.0")
        (Version.ofString "2.0.0") false true)) = false ∧
    (Version.ofString "1.0.0").pyLt (Version.ofString "2.0.0") = true ∧
    (Version.ofString "2.0.0").pyLe (Version.ofString "2.0.0") = true := by
  refine ⟨rfl, rfl, rfl⟩

/-- Claim C3 (counterexample): the string "1.2.3-" — an empty status after
the dash — is accepted by the constructor (the regex's status group is
`\S*`), with status stored as the empty string, even though the
specification's grammar requires a non-empty status token. -/
theorem c3_empty_status_accepted :
    parseVersion ("1.2.3-".toList) =
      .ok ⟨"1.2.3-".toList, 1, 2, 3, none, some []⟩ ∧
    ¬ SpecGrammarCore ("1.2.3-".toList) := by
  refine ⟨rfl, ?_⟩
  rintro ⟨maj, mnr, mic, pat, st, hs, hmaj, hmnr, hmic, hpat, hst⟩
  have h6 : ("1.2.3-".toList).length = 6 := rfl
  rw [hs] at h6
  simp only [List.length_append, List.length_cons] at h6
  have hmaj1 : 1 ≤ maj.length := List.length_pos.mpr hmaj.1
  have hmnr1 : 1 ≤ mnr.length := List.length_pos.mpr hmnr.1
  have hmic1 : 1 ≤ mic.length := List.length_pos.mpr hmic.1
  rcases hst with hst0 | ⟨t, hstt, htne, hts⟩
  · subst hst0
    have hdash : '-' ∈ ("1.2.3-".toList) := by decide
    rw [hs] at hdash
    simp only [List.append_nil, List.mem_append, List.mem_cons] at hdash
    have hnd : ∀ l : List Char, (∀ c ∈ l, c.isDigit = true) → '-' ∈ l → False := by
      intro l hl hm
      exact absurd (hl '-' hm) (by decide)
    have hdot : ('-' : Char) = '.' → False := by decide
    rcases hdash with ((h | h | h) | h | h) | h
    · exact hnd maj hmaj.2 h
    · exact hdot h
    · exact hnd mnr hmnr.2 h
    · exact hdot h
    · exact hnd mic hmic.2 h
    · rcases hpat with hp0 | ⟨p, hpp, hdp⟩
      · subst hp0
        simp at h
      · subst hpp
        rcases List.mem_cons.mp h with h | h
        · exact hdot h
        · exact hnd p hdp.2 h
  · subst hstt
    have ht1 : 1 ≤ t.length := List.length_pos.mpr htne
    simp only [List.length_cons] at h6
    omega

/-- Claim C3 (amended): the constructor succeeds exactly when the input
matches the grammar `major.minor.micro[.patch][-status]` — anchored, with
non-negative decimal components and a possibly EMPTY non-whitespace status
token after the dash — optionally followed by one final newline (Python's
`$` anchor also matches just before a terminal newline); every failure
carries the offending string. -/
theorem c3_grammar_characterization :
    ∀ s : List Char,
      ((∃ v, parseVersion s = .ok v) ↔ AmendedGrammar s) ∧
      (∀ e, parseVersion s = .error e → e = s) := by
  intro s
  refine ⟨parse_ok_iff_grammar s, ?_⟩
  intro e he
  unfold parseVersion at he
  cases hc : parseCore s with
  | none =>
    simp only [hc] at he
    injection he with he
    exact he.symm
  | some g =>
    simp only [hc] at he
    injection he

/-- Claim C4: for parsed versions the three-way comparison is exactly the
lexicographic comparison of the key 4-tuples `(major, minor, micro,
patch-or-0)`; status is excluded (versions differing only in status compare
equal), and exactly one of `a < b`, `a == b`, `a > b` holds. -/
theorem c4_cmp_tuple_order :
    ∀ (sa sb : List Char) (a b : Version),
      parseVersion sa = .ok a → parseVersion sb = .ok b →
      (a.cmp b = 0 ↔ vkey a = vkey b) ∧
      (a.cmp b < 0 ↔ TupLexLt (vkey a) (vkey b)) ∧
      (0 < a.cmp b ↔ TupLexLt (vkey b) (vkey a)) ∧
      ((a.pyLt b = true ∧ a.pyEq b = false ∧ a.pyGt b = false) ∨
        (a.pyLt b = false ∧ a.pyEq b = true ∧ a.pyGt b = false) ∨
        (a.pyLt b = false ∧ a.pyEq b = false ∧ a.pyGt b = true)) ∧
      (Version.ofString "1.2.3-alpha").pyEq (Version.ofString "1.2.3-beta") = true := by
  intro sa sb a b ha hb
  have hv := cmp_vals a b
  refine ⟨cmp_eq_zero_iff a b, ?_, ?_, ?_, by rfl⟩
  · constructor
    · intro h
      have hm1 : a.cmp b = -1 := by omega
      exact (cmp_eq_negone_iff a b).mp hm1
    · intro h
      have := (cmp_eq_negone_iff a b).mpr h
      omega
  · constructor
    · intro h
      have h1 : a.cmp b = 1 := by omega
      exact (cmp_eq_one_iff a b).mp h1
    · intro h
      have := (cmp_eq_one_iff a b).mpr h
      omega
  · unfold Version.pyLt Version.pyEq Version.pyGt
    rcases hv with h | h | h <;> rw [h] <;> simp

/-- Witness for C4 at the parsed versions "1.2.3" and "1.2.3.4": the strict
comparison agrees with the lexicographic tuple order. -/
theorem c4_cmp_tuple_order_witness :
    (Version.ofString "1.2.3").cmp (Version.ofString "1.2.3.4") < 0 ↔
      TupLexLt (vkey (Version.ofString "1.2.3")) (vkey (Version.ofString "1.2.3.4")) :=
  (c4_cmp_tuple_order "1.2.3".toList "1.2.3.4".toList (Version.ofString "1.2.3")
    (Version.ofString "1.2.3.4") rfl rfl).2.1

/-- Claim C5: parsing followed by the string conversion is the identity on
accepted inputs — the constructor stores the exact input string and
`__str__` returns it verbatim. -/
theorem c5_roundtrip :
    ∀ (s : List Char) (v : Version), parseVersion s = .ok v → v.str = s := by
  intro s v h
  unfold parseVersion at h
  cases hc : parseCore s with
  | none =>
    simp only [hc] at h
    injection h
  | some g =>
    simp only [hc] at h
    injection h with h
    subst h
    rfl

/-- Witness for C5 at the status-tagged input "1.2.3-alpha". -/
theorem c5_roundtrip_witness :
    (Version.ofString "1.2.3-alpha").str = "1.2.3-alpha".toList :=
  c5_roundtrip "1.2.3-alpha".toList (Version.ofString "1.2.3-alpha") rfl

/-- Claim C6: `meets_requirements` against a single version is the
inclusive comparison `candidate >= requirement` (stated through the
specification-side tuple order); against a rule set it is the logical or of
the rules, an empty set matching nothing; and the two concrete
minimum-version examples evaluate as the specification states. -/
theorem c6_satisfaction :
    (∀ self req : Version, (self.meets_requirements (.ver req) = true ↔
        (vkey req = vkey self ∨ TupLexLt (vkey req) (vkey self)))) ∧
    (∀ (self : Version) (rules : List (Version → Bool)),
        (self.meets_requirements (.reqs ⟨rules⟩) = true ↔
          ∃ rule ∈ rules, rule self = true)) ∧
    (∀ self : Version,
        self.meets_requirements (.reqs (VersionRequirements.init none)) = false) ∧
    (Version.ofString "0.2.2.7").meets_requirements
      (.ver (Version.ofString "0.2.2.7")) = true ∧
    (Version.ofString "0.2.2.6").meets_requirements
      (.ver (Version.ofString "0.2.2.7")) = false := by
  refine ⟨?_, ?_, ?_, by rfl, by rfl⟩
  · intro self req
    unfold Version.meets_requirements Version.pyGe
    rw [decide_eq_true_iff]
    constructor
    · intro h
      rcases cmp_vals self req with hc | hc | hc
      · rw [hc] at h
        exact absurd h (by decide)
      · exact Or.inl ((cmp_eq_zero_iff self req).mp hc).symm
      · exact Or.inr ((cmp_eq_one_iff self req).mp hc)
    · intro h
      rcases h with h | h
      · have := (cmp_eq_zero_iff self req).mpr h.symm
        omega
      · have := (cmp_eq_one_iff self req).mpr h
        omega
  · intro self rules
    simp [Version.meets_requirements, List.any_eq_true]
  · intro self
    rfl

/-- Claim C8: the AUTH_SAFECOOKIE registry entry — the in-range rule
[0.2.2.36, 0.2.3.0) or the greater-than rule from 0.2.3.13 — accepts
0.2.2.40 and 0.2.4.0 and rejects 0.2.3.0 (exclusive upper bound) and
0.2.3.5 (the gap between the two rules). -/
theorem c8_auth_safecookie :
    (Version.ofString "0.2.2.40").meets_requirements Requirement.AUTH_SAFECOOKIE = true ∧
    (Version.ofString "0.2.4.0").meets_requirements Requirement.AUTH_SAFECOOKIE = true ∧
    (Version.ofString "0.2.3.0").meets_requirements Requirement.AUTH_SAFECOOKIE = false ∧
    (Version.ofString "0.2.3.5").meets_requirements Requirement.AUTH_SAFECOOKIE = false := by
  refine ⟨rfl, rfl, rfl, rfl⟩

/-- Claim C9: equality of a `Version` against any non-`Version` value is
false — the `__cmp__` guard returns 1 for such arguments, which is nonzero. -/
theorem c9_nonversion_never_equal :
    ∀ v : Version, v.eqAny PyValue.nonVersion = false :=
  fun _ => rfl

/-- Claim C10: constructing `VersionRequirements` with a version argument
yields the same one-rule set as constructing it empty and calling
`greater_than` with the default inclusive flag; on every candidate both
evaluate to `candidate >= version`. -/
theorem c10_init_greater_than_equiv :
    ∀ version candidate : Version,
      candidate.meets_requirements (.reqs (VersionRequirements.init (some version))) =
        candidate.meets_requirements
          (.reqs ((VersionRequirements.init none).greater_than version true)) ∧
      candidate.meets_requirements (.reqs (VersionRequirements.init (some version))) =
        candidate.pyGe version := by
  intro version candidate
  refine ⟨rfl, ?_⟩
  have h1 : candidate.meets_requirements (.reqs (VersionRequirements.init (some version))) =
      version.pyLe candidate := by
    simp [Version.meets_requirements, VersionRequirements.init,
      VersionRequirements.greater_than]
  rw [h1]
  unfold Version.pyLe Version.pyGe
  rw [version_cmp_swap version candidate]
  exact decide_eq_decide.mpr (by omega)

/-- Witness for C7: after the canonical resolution caches 0.2.1.30 under
"tor", a second call — even with a collaborator producing unusable output —
returns the cached value and leaves the cache as it was. -/
theorem c7_cache_discipline_witness :
    get_system_tor_version exBadCall [(exTorCmd, exVersion)] exTorCmd =
      (.ok exVersion, [(exTorCmd, exVersion)]) :=
  ((c7_cache_discipline exGoodCall [] exTorCmd).2.1 exVersion
    [(exTorCmd, exVersion)] rfl).2 exBadCall

/-- Witness for C3's amended theorem: at the rejected input "abc" the parse
error carries the offending string itself. -/
theorem c3_grammar_characterization_witness :
    ("abc".toList : List Char) = "abc".toList :=
  (c3_grammar_characterization ("abc".toList)).2 ("abc".toList) rfl
